import Mathlib

/-
Verification development for the transient bidirectional path tracer core:
a shallow embedding of src/integrators/bdpt/bdpt_proc.cpp and
src/librender/film.cpp.  Floating point values are modelled by rationals
(and by reals where the code takes a square root); machine integers by
Nat and Int.  Scene-dependent quantities produced by collaborators
(BSDF evaluations, visibility tests, sampled distances) enter the model
as oracle inputs of the per-candidate evaluation function.
-/

/-- Decomposition modes of the film, Film::EDecompositionType in film.h. -/
inductive EDecompositionType
  | eSteadyState
  | eTransient
  | eBounce
  | eTransientEllipse
deriving DecidableEq

/-- The configuration fields of BDPTConfiguration / BDPTWorkResult that the
per-candidate evaluation in BDPTRenderer::evaluate reads.  The field
modulated stands for getModulationType() being different from
PathLengthSampler::ENone. -/
structure EvalConfig where
  sampleDirect : Bool
  lightImage : Bool
  decompositionType : EDecompositionType
  combineBDPTAndElliptic : Bool
  decompositionMinBound : ℚ
  decompositionMaxBound : ℚ
  decompositionBinWidth : ℚ
  frames : ℕ
  modulated : Bool
  forceBounces : Bool
  sBounces : ℕ
  tBounces : ℕ
deriving DecidableEq

/-- Low-discrepancy stratified path-length target, bdpt_proc.cpp line 137:
Min + BinWidth*(j mod frames) + BinWidth*u, where j is the sample index
within the pixel and u is the sampler draw in the unit interval. -/
def ldPathLengthTarget (cfg : EvalConfig) (j : ℕ) (u : ℚ) : ℚ :=
  cfg.decompositionMinBound + cfg.decompositionBinWidth * ((j % cfg.frames : ℕ) : ℚ)
    + cfg.decompositionBinWidth * u

/-- Bin index of a path length, bdpt_proc.cpp line 760:
floor((pathLength - Min) / BinWidth). -/
def binIndexOf (cfg : EvalConfig) (pathLength : ℚ) : ℤ :=
  ⌊(pathLength - cfg.decompositionMinBound) / cfg.decompositionBinWidth⌋

/-- The emitter type flags that the check at the top of
BDPTRenderer::process inspects (Emitter::EOrthographicEmitter and
Emitter::EPerspectiveEmitter bits). -/
structure EmitterModel where
  isOrthographicEmitter : Bool
  isPerspectiveEmitter : Bool
deriving DecidableEq

/-- Whether the emitter type mask intersects
EOrthographicEmitter or EPerspectiveEmitter. -/
def isProjectorEmitter (e : EmitterModel) : Bool :=
  e.isOrthographicEmitter || e.isPerspectiveEmitter

/-- The projector check of BDPTRenderer::process, bdpt_proc.cpp lines 87-94.
The loop runs once per element of the emitter list, but the body always
inspects element 0 of the list, exactly as the source does. -/
def projectorLightImageFatal (emitters : List EmitterModel) (lightImage : Bool) : Bool :=
  (List.range emitters.length).any (fun _ =>
    match emitters with
    | [] => false
    | e :: _ => isProjectorEmitter e && lightImage)

/-- Typed tokens written to / read from a Stream by Film::serialize and the
Film stream constructor.  Each write of a distinct primitive type produces a
distinct token, so token-list equality models byte-identical encodings. -/
inductive SToken
  | tBase (payload : ℕ)
  | tInt (i : ℤ)
  | tBool (b : Bool)
  | tUInt (n : ℕ)
  | tFloat (q : ℚ)
  | tSize (n : ℕ)
  | tInst (id : ℕ)
deriving DecidableEq

/-- The Film configuration record as persisted by film.cpp.  The base field
stands for the ConfigurableObject payload written first; the filter and the
path-length sampler are serialized through the InstanceManager and are
modelled by their instance identifiers. -/
structure FilmConfig where
  base : ℕ
  sizeX : ℤ
  sizeY : ℤ
  cropOffsetX : ℤ
  cropOffsetY : ℤ
  cropSizeX : ℤ
  cropSizeY : ℤ
  highQualityEdges : Bool
  decompositionType : ℕ
  combineBDPTAndElliptic : Bool
  decompositionMinBound : ℚ
  decompositionMaxBound : ℚ
  decompositionBinWidth : ℚ
  frames : ℕ
  subSamples : ℕ
  forceBounces : Bool
  sBounces : ℕ
  tBounces : ℕ
  filterId : ℕ
  pathLengthSamplerId : ℕ
deriving DecidableEq

/-- Film::serialize, film.cpp lines 133-151, in write order. -/
def filmSerialize (f : FilmConfig) : List SToken :=
  [SToken.tBase f.base,
   SToken.tInt f.sizeX, SToken.tInt f.sizeY,
   SToken.tInt f.cropOffsetX, SToken.tInt f.cropOffsetY,
   SToken.tInt f.cropSizeX, SToken.tInt f.cropSizeY,
   SToken.tBool f.highQualityEdges,
   SToken.tUInt f.decompositionType,
   SToken.tBool f.combineBDPTAndElliptic,
   SToken.tFloat f.decompositionMinBound,
   SToken.tFloat f.decompositionMaxBound,
   SToken.tFloat f.decompositionBinWidth,
   SToken.tSize f.frames,
   SToken.tSize f.subSamples,
   SToken.tBool f.forceBounces,
   SToken.tUInt f.sBounces,
   SToken.tUInt f.tBounces,
   SToken.tInst f.filterId,
   SToken.tInst f.pathLengthSamplerId]

/-- The Film stream constructor, film.cpp lines 111-129.  Each primitive
read (readBool, readUInt, readFloat, readSize, getInstance) consumes one
typed token; the constructor performs the twenty reads in source order, so
the deserializer succeeds exactly on streams carrying the tokens in that
order and returns the remaining stream. -/
def filmDeserialize : List SToken → Option (FilmConfig × List SToken)
  | SToken.tBase base ::
    SToken.tInt sizeX :: SToken.tInt sizeY ::
    SToken.tInt cropOffsetX :: SToken.tInt cropOffsetY ::
    SToken.tInt cropSizeX :: SToken.tInt cropSizeY ::
    SToken.tBool highQualityEdges ::
    SToken.tUInt decompositionType ::
    SToken.tBool combineBDPTAndElliptic ::
    SToken.tFloat decompositionMinBound ::
    SToken.tFloat decompositionMaxBound ::
    SToken.tFloat decompositionBinWidth ::
    SToken.tSize frames ::
    SToken.tSize subSamples ::
    SToken.tBool forceBounces ::
    SToken.tUInt sBounces :: SToken.tUInt tBounces ::
    SToken.tInst filterId :: SToken.tInst pathLengthSamplerId :: rest =>
      some (⟨base, sizeX, sizeY, cropOffsetX, cropOffsetY, cropSizeX, cropSizeY,
             highQualityEdges, decompositionType, combineBDPTAndElliptic,
             decompositionMinBound, decompositionMaxBound, decompositionBinWidth,
             frames, subSamples, forceBounces, sBounces, tBounces,
             filterId, pathLengthSamplerId⟩, rest)
  | _ => none

/-- A three-channel spectrum, SPECTRUM_SAMPLES = 3. -/
structure Spectrum3 where
  r : ℚ
  g : ℚ
  b : ℚ
deriving DecidableEq

/-- Modelled from the spec: Spectrum::getLuminance is outside the three
source files.  It is the scalar luminance of an RGB spectrum, a fixed
linear combination of the three channels with the ITU-R BT.709 weights
used throughout this renderer family; only linearity in the spectrum
matters for the theorems below. -/
def getLuminance (sp : Spectrum3) : ℚ :=
  (212671 / 1000000 : ℚ) * sp.r + (715160 / 1000000 : ℚ) * sp.g
    + (72169 / 1000000 : ℚ) * sp.b

/-- Componentwise division of a spectrum by a scalar count,
Spectrum::operator/ applied to m_config.m_frames. -/
def spectrumDivNat (sp : Spectrum3) (n : ℕ) : Spectrum3 :=
  ⟨sp.r / (n : ℚ), sp.g / (n : ℚ), sp.b / (n : ℚ)⟩

/-- The pretraining fake configuration of adaptive mode, bdpt_proc.cpp
lines 158-160: the bin width becomes Max - Min and the frame count 1. -/
def fakeConfig (cfg : EvalConfig) : EvalConfig :=
  { cfg with
    decompositionBinWidth := cfg.decompositionMaxBound - cfg.decompositionMinBound,
    frames := 1 }

/-- The average luminance used by the adaptive controller, bdpt_proc.cpp
lines 197-200: the average spectrum of the fake result is divided by the
real frame count m_config.m_frames and its luminance is taken. -/
def pretrainAverageLuminance (cfg : EvalConfig) (fakeAverage : Spectrum3) : ℚ :=
  getLuminance (spectrumDivNat fakeAverage cfg.frames)

/-- Flat index of the float that the adaptive snapshot loop touches for
footprint offset (y, x) and time bin j, bdpt_proc.cpp lines 227 and 294:
((hilbertY + y) * xres + (hilbertX + x)) * channels + j. -/
def snapshotIndex (xres channels hy hx j y x : ℕ) : ℕ :=
  ((hy + y) * xres + (hx + x)) * channels + j

/-- Iteration order of the snapshot loops: y then x over the
(2 borderSize + 1) squared reconstruction-filter footprint. -/
def footprint (borderSize : ℕ) : List (ℕ × ℕ) :=
  (List.range (2 * borderSize + 1)).flatMap
    (fun y => (List.range (2 * borderSize + 1)).map (fun x => (y, x)))

/-- The snapshot taken before sampling a pixel for time bin j,
bdpt_proc.cpp lines 225-230: one float per footprint position. -/
def takeSnapshot (target : ℕ → ℚ) (xres channels hy hx j : ℕ) : ℕ × ℕ → ℚ :=
  fun p => target (snapshotIndex xres channels hy hx j p.1 p.2)

/-- The restore pass after the sampling loop exits, bdpt_proc.cpp
lines 292-297: each touched float becomes
snapshot * (1 - factor) + current * factor. -/
def restoreSnapshot (borderSize : ℕ) (snapshot : ℕ × ℕ → ℚ) (factor : ℚ)
    (xres channels hy hx j : ℕ) (target : ℕ → ℚ) : ℕ → ℚ :=
  (footprint borderSize).foldl
    (fun tgt p =>
      Function.update tgt (snapshotIndex xres channels hy hx j p.1 p.2)
        (snapshot p * (1 - factor)
          + tgt (snapshotIndex xres channels hy hx j p.1 p.2) * factor))
    target

/-- The blend factor samplesPerBin / sampleCount, bdpt_proc.cpp line 291. -/
def adaptiveBlendFactor (samplesPerBin sampleCount : ℕ) : ℚ :=
  (samplesPerBin : ℚ) / (sampleCount : ℚ)

/-- Where a committed contribution of one (s, t) candidate goes:
the per-pixel accumulator (t at least 2) or the light image (t = 1). -/
inductive CommitTarget
  | pixel
  | light
deriving DecidableEq

/-- Scene-, sampler- and walk-dependent quantities consumed by the body of
the (s, t) loop of BDPTRenderer::evaluate for one candidate.  Boolean
fields record the outcomes of the zero-throughput, degeneracy, visibility
and sampling tests that the code performs on collaborator objects. -/
structure STOracle where
  isEmitterLaser : Bool
  vsDegenerate : Bool
  vtDegenerate : Bool
  dist : ℚ
  pathLengthTarget : ℚ
  directValueZero : Bool
  ellipsoidOk : Bool
  connEdge1Length : ℚ
  connEdge2Length : ℚ
  modU : ℚ
  corrVal : ℚ
  valueZeroAtTE : Bool
  valueZeroAtConnect : Bool
  connectOk : Bool
  samplePosSkip : Bool
  valueZeroAtCommit : Bool
  miWeight : ℚ
  rgb : Fin 3 → ℚ

/-- Observable effect of one (s, t) candidate: whether a fatal log was
raised, the optional bin commit (target, bin index, recorded path length,
weighted RGB channels), the optional steady-state or modulated
accumulation target, whether the main-branch elliptic connector was
invoked, whether the s = 1 direct ellipsoidal sampler was invoked, and
the corrWeight value carried to the next candidate. -/
structure STEffect where
  fatal : Bool
  commit : Option (CommitTarget × ℤ × ℚ × (Fin 3 → ℚ))
  steady : Option CommitTarget
  elliptic : Bool
  ellipseAttempted : Bool
  corrWeightOut : ℚ

/-- Effect of a skipped candidate (any continue statement). -/
def skipEff (cw : ℚ) : STEffect := ⟨false, none, none, false, false, cw⟩

/-- Effect of the fatal SLog(EError) at bdpt_proc.cpp line 588. -/
def fatalEff (cw : ℚ) : STEffect := ⟨true, none, none, false, false, cw⟩

/-- Effect of handing the candidate to the elliptic connector,
bdpt_proc.cpp line 669, after which the loop continues. -/
def ellipticEff (cw : ℚ) : STEffect := ⟨false, none, none, true, false, cw⟩

/-- The decision whether a combined TransientEllipse candidate is treated
as plain Transient, bdpt_proc.cpp lines 573-585 and 626-638: when
combining is on, the current type is TransientEllipse and the direct path
length lies between the bounds, the candidate becomes Transient; under
modulation the switch happens with probability corr and the importance
correction weight 1/corr (or 1/(1-corr) when staying elliptic) is kept. -/
structure CombineResult where
  cur : EDecompositionType
  corrWeight : ℚ

/-- See CombineResult.  cur is the current decomposition type entering the
decision, u the sampler draw, corrVal the correlation function value at
the candidate path length, cw the corrWeight value before the decision. -/
def combineChoice (cfg : EvalConfig) (cur : EDecompositionType)
    (tempPathLength u corrVal cw : ℚ) : CombineResult :=
  if cfg.combineBDPTAndElliptic ∧ cur = EDecompositionType.eTransientEllipse ∧
     cfg.decompositionMinBound ≤ tempPathLength ∧
     tempPathLength ≤ cfg.decompositionMaxBound then
    if cfg.modulated then
      if u < corrVal then ⟨EDecompositionType.eTransient, 1 / corrVal⟩
      else ⟨EDecompositionType.eTransientEllipse, 1 / (1 - corrVal)⟩
    else ⟨EDecompositionType.eTransient, cw⟩
  else ⟨cur, cw⟩

/-- The bin-commit decision of bdpt_proc.cpp lines 756-784: when the
candidate decomposition type is neither steady state nor modulated
Transient, the bin index floor((pathLength - Min)/BinWidth) is computed
and the weighted RGB value is recorded exactly under the guard of line
761 (path length between Min and Max, nonzero value, bin index in
[0, frames)), into the pixel accumulator for t at least 2 and through
putLightSample for t = 1. -/
def commitDecision (cfg : EvalConfig) (t : ℕ) (cur : EDecompositionType)
    (pathLength : ℚ) (o : STOracle) :
    Option (CommitTarget × ℤ × ℚ × (Fin 3 → ℚ)) :=
  if cur ≠ EDecompositionType.eSteadyState ∧
     ¬(cur = EDecompositionType.eTransient ∧ cfg.modulated) then
    if cfg.decompositionMinBound ≤ pathLength ∧
       pathLength ≤ cfg.decompositionMaxBound ∧
       o.valueZeroAtCommit = false ∧
       0 ≤ binIndexOf cfg pathLength ∧
       binIndexOf cfg pathLength < (cfg.frames : ℤ) then
      some (if 2 ≤ t then CommitTarget.pixel else CommitTarget.light,
            binIndexOf cfg pathLength, pathLength,
            fun c => o.rgb c * o.miWeight)
    else none
  else none

/-- The steady-state / modulated accumulation of bdpt_proc.cpp lines
786-791: it fires when the candidate type is steady state or the
configured type is Transient under modulation, into the pixel
accumulator for t at least 2 and the light image for t = 1. -/
def steadyDecision (cfg : EvalConfig) (t : ℕ) (cur : EDecompositionType) :
    Option CommitTarget :=
  if cur = EDecompositionType.eSteadyState ∨
     (cfg.decompositionType = EDecompositionType.eTransient ∧ cfg.modulated) then
    some (if 2 ≤ t then CommitTarget.pixel else CommitTarget.light)
  else none

/-- The connection and accumulation tail of the (s, t) body, bdpt_proc.cpp
lines 697-791, entered with the decomposition type cur fixed for this
candidate and the recorded path length already computed.  Line 701 skips
everything when cur is still TransientEllipse; line 703 skips on zero
throughput or a failed pathConnectAndCollapse; line 742 skips when the
pixel position of a sensor sample cannot be recovered; otherwise the
commit and accumulation decisions apply. -/
def connectAndCommit (cfg : EvalConfig) (t : ℕ) (cur : EDecompositionType)
    (cw : ℚ) (pathLength : ℚ) (o : STOracle) : STEffect :=
  if cur = EDecompositionType.eTransientEllipse then skipEff cw
  else if o.valueZeroAtConnect ∨ ¬o.connectOk then skipEff cw
  else if o.samplePosSkip then skipEff cw
  else
    ⟨false, commitDecision cfg t cur pathLength o, steadyDecision cfg t cur,
     false, false, cw⟩

/-- The per-branch initial path length of bdpt_proc.cpp lines 505-507 and
557-559: the cumulative subpath length when the decomposition is not
steady state, else the initial zero. -/
def subpathLenAt (cfg : EvalConfig) (arr : ℕ → ℚ) (i : ℕ) : ℚ :=
  if cfg.decompositionType ≠ EDecompositionType.eSteadyState then arr i else 0

/-- The candidate direct path length of bdpt_proc.cpp lines 518-520,
569-571 and 622-624: base plus the endpoint distance in Transient or
TransientEllipse mode, else the initial zero. -/
def tempLen (cfg : EvalConfig) (base dist : ℚ) : ℚ :=
  if cfg.decompositionType = EDecompositionType.eTransient ∨
     cfg.decompositionType = EDecompositionType.eTransientEllipse
  then base + dist else 0

/-- The reclassification of bdpt_proc.cpp lines 522-524 in the s = 1
direct branch: when combining is on, the configured type is
TransientEllipse and the direct length lies between the bounds, the
candidate becomes plain Transient (with no modulation test, unlike the
decision used by the t = 1 and general branches). -/
def s1Reclassify (cfg : EvalConfig) (tpl : ℚ) : EDecompositionType :=
  if cfg.combineBDPTAndElliptic ∧
     cfg.decompositionType = EDecompositionType.eTransientEllipse ∧
     cfg.decompositionMinBound ≤ tpl ∧ tpl ≤ cfg.decompositionMaxBound
  then EDecompositionType.eTransient else cfg.decompositionType

/-- The path length recorded by the direct-sampling branches,
bdpt_proc.cpp lines 540-547 and 602-609: the direct length in Transient
mode, one more than the base in Bounce mode, else the base. -/
def directPathLength (cur : EDecompositionType) (base tpl : ℚ) : ℚ :=
  match cur with
  | EDecompositionType.eTransient => tpl
  | EDecompositionType.eBounce => base + 1
  | _ => base

/-- The path length recorded by the general connection branch,
bdpt_proc.cpp lines 682-689: the direct length in Transient mode, the
combined subpath length plus one in Bounce mode, else the initial zero
of line 454. -/
def mainPathLength (cur : EDecompositionType) (sumLen tpl : ℚ) : ℚ :=
  match cur with
  | EDecompositionType.eTransient => tpl
  | EDecompositionType.eBounce => sumLen + 1
  | _ => 0

/-- The s = 1 direct-sampling side of bdpt_proc.cpp lines 498-549: skip
on a degenerate sensor-side endpoint or zero direct-sampling throughput;
in elliptic mode attempt the ellipsoidal insertion of line 529 (which
never raises a fatal error, and whose result line 701 then discards
because the candidate type is still TransientEllipse); otherwise connect
with the direct path length. -/
def directS1 (cfg : EvalConfig) (s t : ℕ) (eLen sLen : ℕ → ℚ)
    (o : STOracle) (cw : ℚ) : STEffect :=
  if o.vtDegenerate then skipEff cw
  else if o.directValueZero then skipEff cw
  else
    let pl0 := subpathLenAt cfg sLen t
    let tpl := tempLen cfg pl0 o.dist
    let cur := s1Reclassify cfg tpl
    if cur = EDecompositionType.eTransientEllipse then
      if ¬cfg.combineBDPTAndElliptic ∨ tpl ≤ cfg.decompositionMinBound then
        if o.pathLengthTarget - eLen s - sLen t < 0 then skipEff cw
        else if ¬o.ellipsoidOk then { skipEff cw with ellipseAttempted := true }
        else
          { connectAndCommit cfg t cur cw
              (pl0 + o.connEdge1Length + o.connEdge2Length) o with
            ellipseAttempted := true }
      else skipEff cw
    else connectAndCommit cfg t cur cw (directPathLength cur pl0 tpl) o

/-- The t = 1 direct-sampling side of bdpt_proc.cpp lines 550-612: skip
on a degenerate emitter-side endpoint or zero direct-sampling
throughput; when the candidate is still TransientEllipse after the
combine decision, raise the fatal log of line 588 (the code after it is
dead); otherwise connect with the direct path length. -/
def directT1 (cfg : EvalConfig) (s t : ℕ) (eLen sLen : ℕ → ℚ)
    (o : STOracle) (cw : ℚ) : STEffect :=
  if o.vsDegenerate then skipEff cw
  else if o.directValueZero then skipEff cw
  else
    let pl0 := subpathLenAt cfg eLen s
    let tpl := tempLen cfg pl0 o.dist
    let cr := combineChoice cfg cfg.decompositionType tpl o.modU o.corrVal cw
    if cr.cur = EDecompositionType.eTransientEllipse then fatalEff cr.corrWeight
    else connectAndCommit cfg t cr.cur cr.corrWeight
      (directPathLength cr.cur pl0 tpl) o

/-- The general connection branch of bdpt_proc.cpp lines 615-694: skip
on degenerate endpoints; when the candidate is still TransientEllipse
after the combine decision, hand it to the elliptic connector of line
669 when the throughput is nonzero and the residual budget positive and
continue either way; otherwise connect with the recorded path length. -/
def mainConnect (cfg : EvalConfig) (s t : ℕ) (eLen sLen : ℕ → ℚ)
    (o : STOracle) (cw : ℚ) : STEffect :=
  if o.vsDegenerate ∨ o.vtDegenerate then skipEff cw
  else
    let tpl := tempLen cfg (eLen s + sLen t) o.dist
    let cr := combineChoice cfg cfg.decompositionType tpl o.modU o.corrVal cw
    if cr.cur = EDecompositionType.eTransientEllipse then
      if ¬cfg.combineBDPTAndElliptic ∨ tpl ≤ cfg.decompositionMinBound then
        if o.valueZeroAtTE = false ∧ 0 < o.pathLengthTarget - eLen s - sLen t then
          ellipticEff cr.corrWeight
        else skipEff cr.corrWeight
      else skipEff cr.corrWeight
    else connectAndCommit cfg t cr.cur cr.corrWeight
      (mainPathLength cr.cur (eLen s + sLen t) tpl) o

/-- The body of the (s, t) double loop of BDPTRenderer::evaluate,
bdpt_proc.cpp lines 417-793, for one candidate: the skip guards of
lines 418-426, then the direct-sampling dispatch of line 496 into the
s = 1 or t = 1 side, else the general connection branch.  eLen and sLen
are the cumulative per-subpath length arrays of lines 347-370 and cw is
the corrWeight value carried from the previous candidate. -/
def evalST (cfg : EvalConfig) (s t : ℕ) (eLen sLen : ℕ → ℚ)
    (o : STOracle) (cw : ℚ) : STEffect :=
  if s = 0 ∨ t = 0 ∨ (cfg.decompositionType = EDecompositionType.eTransient ∧ s = 1 ∧ t = 1) then
    skipEff cw
  else if o.isEmitterLaser ∧ cfg.decompositionType = EDecompositionType.eTransient ∧ s = 2 ∧ t = 1 then
    skipEff cw
  else if cfg.forceBounces ∧ (s ≠ cfg.sBounces ∨ t ≠ cfg.tBounces) then
    skipEff cw
  else if cfg.sampleDirect ∧ ((t = 1 ∧ 1 < s) ∨ (s = 1 ∧ 1 < t)) then
    if s = 1 then directS1 cfg s t eLen sLen o cw
    else directT1 cfg s t eLen sLen o cw
  else mainConnect cfg s t eLen sLen o cw

/-- The cumulative per-subpath length arrays of bdpt_proc.cpp lines
347-370: entries 0 and 1 are zero; from index 2 on, Transient and
TransientEllipse accumulate the geometric edge lengths while Bounce adds
one per edge.  In steady state the arrays are never read. -/
def cumulativePathLength (dt : EDecompositionType) (edgeLength : ℕ → ℚ) : ℕ → ℚ
  | 0 => 0
  | 1 => 0
  | n + 2 =>
    cumulativePathLength dt edgeLength (n + 1) +
      (match dt with
       | EDecompositionType.eTransient => edgeLength (n + 1)
       | EDecompositionType.eTransientEllipse => edgeLength (n + 1)
       | EDecompositionType.eBounce => 1
       | EDecompositionType.eSteadyState => 0)

/-- The length array a subpath with the given edge lengths contributes
under the configured decomposition type. -/
def subpathLengths (cfg : EvalConfig) (edgeLength : ℕ → ℚ) : ℕ → ℚ :=
  cumulativePathLength cfg.decompositionType edgeLength

/-- Run the (s, t) double loop over a list of candidate pairs, threading
the corrWeight value (set to 1 at bdpt_proc.cpp line 339) through
the iterations and collecting each candidate effect. -/
def runCandidates (cfg : EvalConfig) (eLen sLen : ℕ → ℚ)
    (oracle : ℕ → ℕ → STOracle) : List (ℕ × ℕ) → ℚ → List STEffect
  | [], _ => []
  | p :: rest, cw =>
    let eff := evalST cfg p.1 p.2 eLen sLen (oracle p.1 p.2) cw
    eff :: runCandidates cfg eLen sLen oracle rest eff.corrWeightOut

/-- BDPTRenderer::evaluate as a pool-threading computation.  The pool is
the number of outstanding memory-pool allocations.  Lines 332-334 acquire
two connection edges and one connection vertex; the loop body performs no
pool operation of its own (it only reuses the preallocated scratch
objects and stack temporaries); a fatal log aborts by exception before
the releases; lines 803-805 release the three scratch objects on every
non-fatal path, including every continue branch. -/
def evaluateModel (cfg : EvalConfig) (eLen sLen : ℕ → ℚ)
    (oracle : ℕ → ℕ → STOracle) (pairs : List (ℕ × ℕ)) (pool : ℕ) :
    Except Unit (List STEffect × ℕ) :=
  let pool1 := pool + 3
  let effs := runCandidates cfg eLen sLen oracle pairs 1
  if effs.any (fun e => e.fatal) then Except.error ()
  else Except.ok (effs, pool1 - 3)

/-- One pixel sample of BDPTRenderer::process, lines 129-148: the two
subpaths are built and walked (subpathObjects pool acquisitions in
total), evaluate runs, and both subpaths are released.  The result is
the number of outstanding pool allocations at the pixel-sample boundary,
where the source asserts m_pool.unused(). -/
def processSampleModel (cfg : EvalConfig) (eLen sLen : ℕ → ℚ)
    (oracle : ℕ → ℕ → STOracle) (pairs : List (ℕ × ℕ))
    (subpathObjects : ℕ) (pool : ℕ) : Except Unit ℕ :=
  let pool1 := pool + subpathObjects
  match evaluateModel cfg eLen sLen oracle pairs pool1 with
  | Except.error e => Except.error e
  | Except.ok (_, pool2) => Except.ok (pool2 - subpathObjects)

/-- Configuration of the adaptive sampling loop of BDPTRenderer::process,
lines 196-288.  averageLuminance is the pretraining estimate, quantile
and maxError the a-priori adaptive parameters, samplesPerBin the nominal
per-bin budget sampleCount/frames of line 205. -/
structure AdapConfig where
  adapMaxSampleFactor : ℤ
  samplesPerBin : ℕ
  adapQuantile : ℝ
  adapMaxError : ℝ
  averageLuminance : ℝ

/-- State of the online variance tracker: running mean, running sum of
squared deviations and number of samples taken. -/
structure WState where
  mean : ℚ
  meanSqr : ℚ
  sampleCount : ℕ
deriving DecidableEq

/-- One Welford update, bdpt_proc.cpp lines 266-269: increment the count,
then mean += delta/count with delta the deviation from the old mean, and
meanSqr += delta * (x - newMean). -/
def welfordStep (st : WState) (x : ℚ) : WState :=
  let n : ℕ := st.sampleCount + 1
  let delta : ℚ := x - st.mean
  let mean : ℚ := st.mean + delta / (n : ℚ)
  ⟨mean, st.meanSqr + delta * (x - mean), n⟩

/-- Folding Welford updates over a list of sample luminances. -/
def welfordFold (st : WState) (xs : List ℚ) : WState :=
  xs.foldl welfordStep st

/-- The exit test evaluated after each sample of the adaptive loop,
bdpt_proc.cpp lines 271-287: the hard cap fires only when
adapMaxSampleFactor is nonnegative; otherwise, once sampleCount reaches
samplesPerBin, the loop exits when the half confidence interval width
sqrt(variance/n) * quantile is at most maxError times
max(mean, averageLuminance * 0.01), with variance = meanSqr/(n-1). -/
def adaptiveStop (cfg : AdapConfig) (st : WState) : Prop :=
  (0 ≤ cfg.adapMaxSampleFactor ∧
    cfg.adapMaxSampleFactor * (cfg.samplesPerBin : ℤ) ≤ (st.sampleCount : ℤ)) ∨
  (cfg.samplesPerBin ≤ st.sampleCount ∧
    Real.sqrt ((st.meanSqr : ℝ) / ((st.sampleCount : ℝ) - 1) / (st.sampleCount : ℝ))
        * cfg.adapQuantile ≤
      cfg.adapMaxError * max (st.mean : ℝ) (cfg.averageLuminance * 0.01))

/-- The termination condition exactly as the claim words it: the hard cap
sampleCount at least adapMaxSampleFactor * samplesPerBin with no sign
guard, or the confidence test. -/
def claimStop (cfg : AdapConfig) (st : WState) : Prop :=
  (cfg.adapMaxSampleFactor * (cfg.samplesPerBin : ℤ) ≤ (st.sampleCount : ℤ)) ∨
  (cfg.samplesPerBin ≤ st.sampleCount ∧
    cfg.adapQuantile *
        Real.sqrt ((st.meanSqr : ℝ) / ((st.sampleCount : ℝ) * ((st.sampleCount : ℝ) - 1))) ≤
      cfg.adapMaxError * max (st.mean : ℝ) (0.01 * cfg.averageLuminance))

/-- The claim termination condition amended with the sign guard of
bdpt_proc.cpp line 271 on the hard cap. -/
def claimStopAmended (cfg : AdapConfig) (st : WState) : Prop :=
  (0 ≤ cfg.adapMaxSampleFactor ∧
    cfg.adapMaxSampleFactor * (cfg.samplesPerBin : ℤ) ≤ (st.sampleCount : ℤ)) ∨
  (cfg.samplesPerBin ≤ st.sampleCount ∧
    cfg.adapQuantile *
        Real.sqrt ((st.meanSqr : ℝ) / ((st.sampleCount : ℝ) * ((st.sampleCount : ℝ) - 1))) ≤
      cfg.adapMaxError * max (st.mean : ℝ) (0.01 * cfg.averageLuminance))

/-- Operational semantics of the while(true) sampling loop of
bdpt_proc.cpp lines 234-288, fed by the stream of sample luminances it
would observe: each iteration draws one sample, performs the Welford
update, and exits exactly when the stop test holds for the updated
state; otherwise it continues with the next sample. -/
inductive AdaptiveLoopRun (cfg : AdapConfig) : WState → List ℚ → WState → Prop
  | stop (st : WState) (x : ℚ) (rest : List ℚ) :
      adaptiveStop cfg (welfordStep st x) →
      AdaptiveLoopRun cfg st (x :: rest) (welfordStep st x)
  | next (st : WState) (x : ℚ) (rest : List ℚ) (out : WState) :
      ¬ adaptiveStop cfg (welfordStep st x) →
      AdaptiveLoopRun cfg (welfordStep st x) rest out →
      AdaptiveLoopRun cfg st (x :: rest) out

/-- An oracle on which every collaborator test passes: non-degenerate
endpoints, nonzero throughput everywhere, successful connection, distance
3 between the endpoints, path-length target 10, unit scratch edge
lengths, unit filtered RGB value. -/
def oracleBenign : STOracle where
  isEmitterLaser := false
  vsDegenerate := false
  vtDegenerate := false
  dist := 3
  pathLengthTarget := 10
  directValueZero := false
  ellipsoidOk := true
  connEdge1Length := 1
  connEdge2Length := 1
  modU := 0
  corrVal := 0
  valueZeroAtTE := false
  valueZeroAtConnect := false
  connectOk := true
  samplePosSkip := false
  valueZeroAtCommit := false
  miWeight := 1
  rgb := fun _ => 1

/-- A plain transient configuration: bounds [0, 10], bin width 1,
10 frames, no direct sampling, no combining, no modulation. -/
def cfgTransient : EvalConfig where
  sampleDirect := false
  lightImage := false
  decompositionType := EDecompositionType.eTransient
  combineBDPTAndElliptic := false
  decompositionMinBound := 0
  decompositionMaxBound := 10
  decompositionBinWidth := 1
  frames := 10
  modulated := false
  forceBounces := false
  sBounces := 0
  tBounces := 0

/-- A bounce-decomposition configuration: bounds [0, 100], bin width 1,
100 frames. -/
def cfgBounce : EvalConfig where
  sampleDirect := false
  lightImage := false
  decompositionType := EDecompositionType.eBounce
  combineBDPTAndElliptic := false
  decompositionMinBound := 0
  decompositionMaxBound := 100
  decompositionBinWidth := 1
  frames := 100
  modulated := false
  forceBounces := false
  sBounces := 0
  tBounces := 0

/-- A TransientEllipse configuration with direct sampling and the light
image enabled and combining off, as needed to reach the direct-sampling
strategies in elliptic mode. -/
def cfgTEDirect : EvalConfig where
  sampleDirect := true
  lightImage := true
  decompositionType := EDecompositionType.eTransientEllipse
  combineBDPTAndElliptic := false
  decompositionMinBound := 0
  decompositionMaxBound := 10
  decompositionBinWidth := 1
  frames := 10
  modulated := false
  forceBounces := false
  sBounces := 0
  tBounces := 0

/-- A TransientEllipse configuration with two time bins for the
low-discrepancy sampler: bounds [0, 2], bin width 1, 2 frames. -/
def cfgLd : EvalConfig where
  sampleDirect := false
  lightImage := false
  decompositionType := EDecompositionType.eTransientEllipse
  combineBDPTAndElliptic := false
  decompositionMinBound := 0
  decompositionMaxBound := 2
  decompositionBinWidth := 1
  frames := 2
  modulated := false
  forceBounces := false
  sBounces := 0
  tBounces := 0

/-- Subpath edge lengths that are all zero. -/
def zeroEdges : ℕ → ℚ := fun _ => 0

/-- Subpath edge lengths that are all one. -/
def oneEdges : ℕ → ℚ := fun _ => 1

/-- Adaptive configuration with a negative hard-cap factor (the sign
guard of line 271 then disables the cap): samplesPerBin 2, quantile 1,
maxError 1, average luminance 1. -/
def ceAdapConfig : AdapConfig where
  adapMaxSampleFactor := -1
  samplesPerBin := 2
  adapQuantile := 1
  adapMaxError := 1
  averageLuminance := 1

/-- Adaptive configuration with the default hard-cap factor 8:
samplesPerBin 2, quantile 1, maxError 1, average luminance 1. -/
def wAdapConfig : AdapConfig where
  adapMaxSampleFactor := 8
  samplesPerBin := 2
  adapQuantile := 1
  adapMaxError := 1
  averageLuminance := 1

/-- Pixel buffer contents before the adaptive sampling of one pixel:
channels (10, 20, 30) in a one-pixel image with 5 channels. -/
def targetBefore : ℕ → ℚ := fun i =>
  if i = 0 then 10 else if i = 1 then 20 else if i = 2 then 30 else 0

/-- Pixel buffer contents after the adaptive sampling loop accumulated
into the same pixel: channels (14, 24, 34). -/
def targetAfter : ℕ → ℚ := fun i =>
  if i = 0 then 14 else if i = 1 then 24 else if i = 2 then 34 else 0

/-- An emitter with neither projector bit set. -/
def emitterDiffuse : EmitterModel := ⟨false, false⟩

/-- A perspective projector emitter. -/
def emitterProjector : EmitterModel := ⟨false, true⟩

theorem cumulativePathLength_bounce (edges : ℕ → ℚ) (n : ℕ) :
    cumulativePathLength EDecompositionType.eBounce edges (n + 1) = (n : ℚ) := by
  induction n with
  | zero => simp [cumulativePathLength]
  | succ m ih =>
    show cumulativePathLength EDecompositionType.eBounce edges (m + 2) = ((m + 1 : ℕ) : ℚ)
    rw [cumulativePathLength, ih]
    push_cast
    ring

/-- Claim C4 (code bug evaluation): with the projector emitter in second
position and the light image enabled, the check of bdpt_proc.cpp lines
87-94 raises no fatal error, because the loop body reads emitters[0] on
every iteration; with the projector first it does.  The claim requires a
fatal error regardless of the position of the projector in the list. -/
theorem projector_check_first_emitter_only :
    projectorLightImageFatal [emitterDiffuse, emitterProjector] true = false ∧
    isProjectorEmitter emitterProjector = true ∧
    projectorLightImageFatal [emitterProjector, emitterDiffuse] true = true := by
  decide

/-- Claim C3 (code bug evaluation): in a one-pixel block with 5 channels
(frames = 1), border 0, bin j = 0, with prior channel values (10, 20, 30)
and values (14, 24, 34) after the sampling loop, the restore pass with
factor 1/2 blends only the float at channel offset j: channel 0 becomes
10*(1/2) + 14*(1/2) = 12, but channels 1 and 2 keep their unblended
values 24 and 34, although blending them as the claim states would give
22 and 32. -/
theorem adaptive_restore_single_channel :
    restoreSnapshot 0 (takeSnapshot targetBefore 1 5 0 0 0) (1/2) 1 5 0 0 0 targetAfter 0 = 12 ∧
    restoreSnapshot 0 (takeSnapshot targetBefore 1 5 0 0 0) (1/2) 1 5 0 0 0 targetAfter 1 = 24 ∧
    restoreSnapshot 0 (takeSnapshot targetBefore 1 5 0 0 0) (1/2) 1 5 0 0 0 targetAfter 2 = 34 ∧
    targetBefore 1 * (1 - 1/2) + targetAfter 1 * (1/2) = 22 ∧
    targetBefore 2 * (1 - 1/2) + targetAfter 2 * (1/2) = 32 := by
  refine ⟨?_, ?_, ?_, by norm_num [targetBefore, targetAfter], by norm_num [targetBefore, targetAfter]⟩ <;>
    norm_num [restoreSnapshot, footprint, takeSnapshot, snapshotIndex, targetBefore,
      targetAfter, Function.update, List.range_succ]

/-- Claim C9 (confirmed): deserializing the serialized Film configuration
consumes the whole stream and returns the identical record, and
serializing the decoded record reproduces the encoding byte for byte. -/
theorem film_serialize_roundtrip (f : FilmConfig) :
    filmDeserialize (filmSerialize f) = some (f, []) ∧
    (filmDeserialize (filmSerialize f)).map (fun p => filmSerialize p.1) =
      some (filmSerialize f) := by
  exact ⟨rfl, rfl⟩

/-- Claim C10 (confirmed): the pretraining fake configuration collapses
the bins (bin width Max - Min, one frame), and the average luminance fed
to the adaptive controller equals the luminance of the fake average
spectrum divided by the real frame count m_config.m_frames. -/
theorem pretrain_average_luminance_spec (cfg : EvalConfig) (fakeAverage : Spectrum3) :
    (fakeConfig cfg).frames = 1 ∧
    (fakeConfig cfg).decompositionBinWidth =
      cfg.decompositionMaxBound - cfg.decompositionMinBound ∧
    pretrainAverageLuminance cfg fakeAverage =
      getLuminance fakeAverage / (cfg.frames : ℚ) := by
  refine ⟨rfl, rfl, ?_⟩
  unfold pretrainAverageLuminance getLuminance spectrumDivNat
  ring

/-- Claim C8 (confirmed): with low-discrepancy sampling the target for
the j-th sample is Min + BinWidth*(j mod frames) + BinWidth*u with u in
the unit interval, so the target of sample j lies in bin j mod frames,
and within any full cycle of frames consecutive samples each of the
frames bins receives exactly one target. -/
theorem ld_sampling_stratified (cfg : EvalConfig) (u : ℕ → ℚ) (c k : ℕ)
    (hW : 0 < cfg.decompositionBinWidth) (hu : ∀ j, 0 ≤ u j ∧ u j < 1)
    (hk : k < cfg.frames) :
    (∀ j, binIndexOf cfg (ldPathLengthTarget cfg j (u j)) = ((j % cfg.frames : ℕ) : ℤ)) ∧
    (∃! j, c * cfg.frames ≤ j ∧ j < (c + 1) * cfg.frames ∧
      binIndexOf cfg (ldPathLengthTarget cfg j (u j)) = (k : ℤ)) := by
  have hbin : ∀ j, binIndexOf cfg (ldPathLengthTarget cfg j (u j)) =
      ((j % cfg.frames : ℕ) : ℤ) := by
    intro j
    unfold binIndexOf ldPathLengthTarget
    have h1 : cfg.decompositionMinBound
        + cfg.decompositionBinWidth * ((j % cfg.frames : ℕ) : ℚ)
        + cfg.decompositionBinWidth * u j - cfg.decompositionMinBound
        = cfg.decompositionBinWidth * (((j % cfg.frames : ℕ) : ℚ) + u j) := by
      ring
    rw [h1, mul_div_cancel_left₀ _ (ne_of_gt hW), Int.floor_nat_add,
      Int.floor_eq_zero_iff.mpr ⟨(hu j).1, (hu j).2⟩, add_zero]
  have hexp : (c + 1) * cfg.frames = c * cfg.frames + cfg.frames := by ring
  refine ⟨hbin, ⟨c * cfg.frames + k, ⟨Nat.le_add_right _ _, by omega, ?_⟩, ?_⟩⟩
  · rw [hbin, Nat.mul_comm c cfg.frames, Nat.mul_add_mod, Nat.mod_eq_of_lt hk]
  · intro y hy
    obtain ⟨hy1, hy2, hy3⟩ := hy
    rw [hbin] at hy3
    have hmod : y % cfg.frames = k := by exact_mod_cast hy3
    have hr : y - c * cfg.frames < cfg.frames := by omega
    have hy' : y = c * cfg.frames + (y - c * cfg.frames) := by omega
    rw [hy', Nat.mul_comm c cfg.frames, Nat.mul_add_mod] at hmod
    have hr2 : y - cfg.frames * c < cfg.frames := by rw [Nat.mul_comm]; exact hr
    rw [Nat.mod_eq_of_lt hr2] at hmod
    have hcomm : cfg.frames * c = c * cfg.frames := Nat.mul_comm _ _
    omega

/-- Witness for claim C8 at a concrete configuration: two frames of
width 1 starting at 0, the constant unit-interval draw 1/2, cycle 0 and
bin 1. -/
theorem ld_sampling_stratified_witness :
    (∀ j, binIndexOf cfgLd (ldPathLengthTarget cfgLd j ((fun _ => (1 : ℚ)/2) j)) =
      ((j % cfgLd.frames : ℕ) : ℤ)) ∧
    (∃! j, 0 * cfgLd.frames ≤ j ∧ j < (0 + 1) * cfgLd.frames ∧
      binIndexOf cfgLd (ldPathLengthTarget cfgLd j ((fun _ => (1 : ℚ)/2) j)) = ((1 : ℕ) : ℤ)) := by
  exact ld_sampling_stratified cfgLd (fun _ => 1/2) 0 1
    (by norm_num [cfgLd]) (fun j => by norm_num) (by norm_num [cfgLd])

theorem connectAndCommit_fatal_eq (cfg : EvalConfig) (t : ℕ) (cur : EDecompositionType)
    (cw pl : ℚ) (o : STOracle) :
    (connectAndCommit cfg t cur cw pl o).fatal = false := by
  unfold connectAndCommit
  split_ifs <;> rfl

theorem commitDecision_spec (cfg : EvalConfig) (t : ℕ) (cur : EDecompositionType)
    (pl : ℚ) (o : STOracle) (tgt : CommitTarget) (k : ℤ) (len : ℚ) (v : Fin 3 → ℚ)
    (hc : commitDecision cfg t cur pl o = some (tgt, k, len, v)) :
    cfg.decompositionMinBound ≤ len ∧ len ≤ cfg.decompositionMaxBound ∧
    0 ≤ k ∧ k < (cfg.frames : ℤ) ∧ k = binIndexOf cfg len ∧ len = pl ∧
    (tgt = CommitTarget.pixel ↔ 2 ≤ t) := by
  unfold commitDecision at hc
  split_ifs at hc with hmode hguard ht
  all_goals first
    | (simp only [Option.some.injEq, Prod.mk.injEq] at hc
       obtain ⟨htgt, hk, hlen, hv⟩ := hc
       obtain ⟨hmin, hmax, hvz, hk0, hkf⟩ := hguard
       subst hlen
       exact ⟨hmin, hmax, hk ▸ hk0, hk ▸ hkf, hk.symm, rfl, by simp [← htgt, ht]⟩)
    | simp at hc

theorem connectAndCommit_commit_spec (cfg : EvalConfig) (t : ℕ) (cur : EDecompositionType)
    (cw pl : ℚ) (o : STOracle) (tgt : CommitTarget) (k : ℤ) (len : ℚ) (v : Fin 3 → ℚ)
    (hc : (connectAndCommit cfg t cur cw pl o).commit = some (tgt, k, len, v)) :
    cfg.decompositionMinBound ≤ len ∧ len ≤ cfg.decompositionMaxBound ∧
    0 ≤ k ∧ k < (cfg.frames : ℤ) ∧ k = binIndexOf cfg len ∧ len = pl ∧
    (tgt = CommitTarget.pixel ↔ 2 ≤ t) := by
  unfold connectAndCommit at hc
  split_ifs at hc with h1 h2 h3
  all_goals first
    | exact commitDecision_spec cfg t cur pl o tgt k len v hc
    | simp [skipEff] at hc


theorem directS1_fatal (cfg : EvalConfig) (s t : ℕ) (eLen sLen : ℕ → ℚ)
    (o : STOracle) (cw : ℚ) : (directS1 cfg s t eLen sLen o cw).fatal = false := by
  simp only [directS1]
  split_ifs <;> simp [skipEff, connectAndCommit_fatal_eq]

theorem mainConnect_fatal (cfg : EvalConfig) (s t : ℕ) (eLen sLen : ℕ → ℚ)
    (o : STOracle) (cw : ℚ) : (mainConnect cfg s t eLen sLen o cw).fatal = false := by
  simp only [mainConnect]
  split_ifs <;> simp [skipEff, ellipticEff, connectAndCommit_fatal_eq]

theorem directT1_fatal_iff (cfg : EvalConfig) (s t : ℕ) (eLen sLen : ℕ → ℚ)
    (o : STOracle) (cw : ℚ) :
    (directT1 cfg s t eLen sLen o cw).fatal = true ↔
      (o.vsDegenerate = false ∧ o.directValueZero = false ∧
       (combineChoice cfg cfg.decompositionType
          (tempLen cfg (subpathLenAt cfg eLen s) o.dist)
          o.modU o.corrVal cw).cur = EDecompositionType.eTransientEllipse) := by
  simp only [directT1]
  split_ifs with hdeg hdvz hte
  · simp [skipEff, hdeg]
  · simp [skipEff, hdvz]
  · simp only [fatalEff]
    simp only [Bool.not_eq_true] at hdeg hdvz
    simp [hdeg, hdvz, hte]
  · simp only [Bool.not_eq_true] at hdeg hdvz
    simp [connectAndCommit_fatal_eq, hte]

theorem combineChoice_cur_te_iff (cfg : EvalConfig) (cur : EDecompositionType)
    (tpl u cv cw : ℚ) :
    (combineChoice cfg cur tpl u cv cw).cur = EDecompositionType.eTransientEllipse ↔
      (cur = EDecompositionType.eTransientEllipse ∧
       ¬(cfg.combineBDPTAndElliptic = true ∧
         cfg.decompositionMinBound ≤ tpl ∧ tpl ≤ cfg.decompositionMaxBound ∧
         (cfg.modulated = false ∨ u < cv))) := by
  unfold combineChoice
  split_ifs with hf hm hu
  · constructor
    · intro h
      exact absurd h (by simp)
    · rintro ⟨-, hn⟩
      exact absurd ⟨hf.1, hf.2.2.1, hf.2.2.2, Or.inr hu⟩ hn
  · constructor
    · intro _
      refine ⟨hf.2.1, ?_⟩
      rintro ⟨-, -, -, hdisj⟩
      rcases hdisj with hmf | huv
      · simp [hm] at hmf
      · exact hu huv
    · intro _
      rfl
  · constructor
    · intro h
      exact absurd h (by simp)
    · rintro ⟨-, hn⟩
      refine absurd ⟨hf.1, hf.2.2.1, hf.2.2.2, Or.inl ?_⟩ hn
      simpa using hm
  · constructor
    · intro h
      exact ⟨h, fun hx => hf ⟨hx.1, h, hx.2.1, hx.2.2.1⟩⟩
    · rintro ⟨h, -⟩
      exact h

theorem combineChoice_not_te (cfg : EvalConfig) (cur : EDecompositionType)
    (tpl u cv cw : ℚ) (h : cur ≠ EDecompositionType.eTransientEllipse) :
    combineChoice cfg cur tpl u cv cw = ⟨cur, cw⟩ := by
  unfold combineChoice
  rw [if_neg]
  rintro ⟨-, hte, -⟩
  exact h hte

theorem directS1_commit_spec (cfg : EvalConfig) (s t : ℕ) (eLen sLen : ℕ → ℚ)
    (o : STOracle) (cw : ℚ) (tgt : CommitTarget) (k : ℤ) (len : ℚ) (v : Fin 3 → ℚ)
    (hc : (directS1 cfg s t eLen sLen o cw).commit = some (tgt, k, len, v)) :
    cfg.decompositionMinBound ≤ len ∧ len ≤ cfg.decompositionMaxBound ∧
    0 ≤ k ∧ k < (cfg.frames : ℤ) ∧ k = binIndexOf cfg len ∧
    (tgt = CommitTarget.pixel ↔ 2 ≤ t) := by
  simp only [directS1] at hc
  split_ifs at hc
  all_goals try simp [skipEff] at hc
  all_goals (
    obtain ⟨hmin, hmax, hk0, hkf, hkeq, -, htgt⟩ :=
      connectAndCommit_commit_spec _ _ _ _ _ _ _ _ _ _ hc
    exact ⟨hmin, hmax, hk0, hkf, hkeq, htgt⟩)

theorem directT1_commit_spec (cfg : EvalConfig) (s t : ℕ) (eLen sLen : ℕ → ℚ)
    (o : STOracle) (cw : ℚ) (tgt : CommitTarget) (k : ℤ) (len : ℚ) (v : Fin 3 → ℚ)
    (hc : (directT1 cfg s t eLen sLen o cw).commit = some (tgt, k, len, v)) :
    cfg.decompositionMinBound ≤ len ∧ len ≤ cfg.decompositionMaxBound ∧
    0 ≤ k ∧ k < (cfg.frames : ℤ) ∧ k = binIndexOf cfg len ∧
    (tgt = CommitTarget.pixel ↔ 2 ≤ t) := by
  simp only [directT1] at hc
  split_ifs at hc
  all_goals try simp [skipEff, fatalEff] at hc
  all_goals (
    obtain ⟨hmin, hmax, hk0, hkf, hkeq, -, htgt⟩ :=
      connectAndCommit_commit_spec _ _ _ _ _ _ _ _ _ _ hc
    exact ⟨hmin, hmax, hk0, hkf, hkeq, htgt⟩)

theorem mainConnect_commit_spec (cfg : EvalConfig) (s t : ℕ) (eLen sLen : ℕ → ℚ)
    (o : STOracle) (cw : ℚ) (tgt : CommitTarget) (k : ℤ) (len : ℚ) (v : Fin 3 → ℚ)
    (hc : (mainConnect cfg s t eLen sLen o cw).commit = some (tgt, k, len, v)) :
    cfg.decompositionMinBound ≤ len ∧ len ≤ cfg.decompositionMaxBound ∧
    0 ≤ k ∧ k < (cfg.frames : ℤ) ∧ k = binIndexOf cfg len ∧
    (tgt = CommitTarget.pixel ↔ 2 ≤ t) := by
  simp only [mainConnect] at hc
  split_ifs at hc
  all_goals try simp [skipEff, ellipticEff] at hc
  all_goals (
    obtain ⟨hmin, hmax, hk0, hkf, hkeq, -, htgt⟩ :=
      connectAndCommit_commit_spec _ _ _ _ _ _ _ _ _ _ hc
    exact ⟨hmin, hmax, hk0, hkf, hkeq, htgt⟩)

/-- Claim C1 (confirmed): whatever the oracle decides, a candidate that
commits into a time bin in a non-steady decomposition without modulation
does so with its recorded path length between Min and Max and its bin
index floor((len - Min)/BinWidth) inside [0, frames); the contribution
goes to the pixel accumulator exactly when t is at least 2 and to the
light image for t = 1.  A candidate whose path length leaves [Min, Max]
therefore contributes to no bin. -/
theorem transient_commit_bin_range (cfg : EvalConfig) (s t : ℕ) (eLen sLen : ℕ → ℚ)
    (o : STOracle) (cw : ℚ) (tgt : CommitTarget) (k : ℤ) (len : ℚ) (v : Fin 3 → ℚ)
    (hns : cfg.decompositionType ≠ EDecompositionType.eSteadyState)
    (hnm : cfg.modulated = false)
    (hc : (evalST cfg s t eLen sLen o cw).commit = some (tgt, k, len, v)) :
    cfg.decompositionMinBound ≤ len ∧ len ≤ cfg.decompositionMaxBound ∧
    0 ≤ k ∧ k < (cfg.frames : ℤ) ∧ k = binIndexOf cfg len ∧
    (tgt = CommitTarget.pixel ↔ 2 ≤ t) := by
  simp only [evalST] at hc
  split_ifs at hc
  all_goals try simp [skipEff] at hc
  all_goals first
    | exact directS1_commit_spec _ _ _ _ _ _ _ _ _ _ _ hc
    | exact directT1_commit_spec _ _ _ _ _ _ _ _ _ _ _ hc
    | exact mainConnect_commit_spec _ _ _ _ _ _ _ _ _ _ _ hc

/-- Witness for claim C1: a plain transient connection at s = t = 2 with
unit edge lengths and endpoint distance 3 commits into bin 5 of the
pixel accumulator with path length 5, inside the bounds [0, 10]. -/
theorem transient_commit_bin_range_witness :
    cfgTransient.decompositionMinBound ≤ 5 ∧
    (5 : ℚ) ≤ cfgTransient.decompositionMaxBound ∧
    (0 : ℤ) ≤ 5 ∧ (5 : ℤ) < (cfgTransient.frames : ℤ) ∧
    (5 : ℤ) = binIndexOf cfgTransient 5 ∧
    (CommitTarget.pixel = CommitTarget.pixel ↔ 2 ≤ 2) := by
  have hc : (evalST cfgTransient 2 2 (subpathLengths cfgTransient oneEdges)
      (subpathLengths cfgTransient oneEdges) oracleBenign 1).commit
      = some (CommitTarget.pixel, 5, 5, fun c => oracleBenign.rgb c * oracleBenign.miWeight) := by
    norm_num [evalST, mainConnect, connectAndCommit, commitDecision, steadyDecision,
      combineChoice, tempLen, mainPathLength, subpathLengths, cumulativePathLength,
      binIndexOf, cfgTransient, oracleBenign, oneEdges]
    simp
  exact transient_commit_bin_range cfgTransient 2 2
    (subpathLengths cfgTransient oneEdges) (subpathLengths cfgTransient oneEdges)
    oracleBenign 1 CommitTarget.pixel 5 5 _ (by decide) rfl hc

theorem directS1_commit_len_bounce (cfg : EvalConfig) (s t : ℕ) (eLen sLen : ℕ → ℚ)
    (o : STOracle) (cw : ℚ) (tgt : CommitTarget) (k : ℤ) (len : ℚ) (v : Fin 3 → ℚ)
    (hb : cfg.decompositionType = EDecompositionType.eBounce)
    (hc : (directS1 cfg s t eLen sLen o cw).commit = some (tgt, k, len, v)) :
    len = sLen t + 1 := by
  simp only [directS1, s1Reclassify, subpathLenAt, tempLen, directPathLength, hb] at hc
  simp at hc
  split_ifs at hc
  all_goals try simp [skipEff] at hc
  all_goals (
    obtain ⟨-, -, -, -, -, hlen, -⟩ :=
      connectAndCommit_commit_spec _ _ _ _ _ _ _ _ _ _ hc
    exact hlen)

theorem directT1_commit_len_bounce (cfg : EvalConfig) (s t : ℕ) (eLen sLen : ℕ → ℚ)
    (o : STOracle) (cw : ℚ) (tgt : CommitTarget) (k : ℤ) (len : ℚ) (v : Fin 3 → ℚ)
    (hb : cfg.decompositionType = EDecompositionType.eBounce)
    (hc : (directT1 cfg s t eLen sLen o cw).commit = some (tgt, k, len, v)) :
    len = eLen s + 1 := by
  simp only [directT1, subpathLenAt, tempLen, hb,
    combineChoice_not_te cfg EDecompositionType.eBounce _ o.modU o.corrVal cw
      (by simp)] at hc
  simp only [directPathLength] at hc
  simp at hc
  split_ifs at hc
  all_goals try simp [skipEff] at hc
  all_goals (
    obtain ⟨-, -, -, -, -, hlen, -⟩ :=
      connectAndCommit_commit_spec _ _ _ _ _ _ _ _ _ _ hc
    exact hlen)

theorem mainConnect_commit_len_bounce (cfg : EvalConfig) (s t : ℕ) (eLen sLen : ℕ → ℚ)
    (o : STOracle) (cw : ℚ) (tgt : CommitTarget) (k : ℤ) (len : ℚ) (v : Fin 3 → ℚ)
    (hb : cfg.decompositionType = EDecompositionType.eBounce)
    (hc : (mainConnect cfg s t eLen sLen o cw).commit = some (tgt, k, len, v)) :
    len = eLen s + sLen t + 1 := by
  simp only [mainConnect, tempLen, hb,
    combineChoice_not_te cfg EDecompositionType.eBounce _ o.modU o.corrVal cw
      (by simp)] at hc
  simp only [mainPathLength] at hc
  simp at hc
  split_ifs at hc
  all_goals try simp [skipEff] at hc
  all_goals (
    obtain ⟨-, -, -, -, -, hlen, -⟩ :=
      connectAndCommit_commit_spec _ _ _ _ _ _ _ _ _ _ hc
    exact hlen)

/-- Claim C7 (confirmed): in Bounce decomposition every committed (s, t)
connection records path length s + t - 1, in every branch of the
evaluation including the direct-sampling strategies at s = 1 and t = 1,
because the cumulative per-subpath length arrays count one unit per edge
beyond the first and the connection contributes one more unit. -/
theorem bounce_commit_path_length (cfg : EvalConfig) (eEdges sEdges : ℕ → ℚ)
    (s t : ℕ) (o : STOracle) (cw : ℚ)
    (tgt : CommitTarget) (k : ℤ) (len : ℚ) (v : Fin 3 → ℚ)
    (hb : cfg.decompositionType = EDecompositionType.eBounce)
    (hc : (evalST cfg s t (subpathLengths cfg eEdges) (subpathLengths cfg sEdges) o cw).commit
        = some (tgt, k, len, v)) :
    len = (s : ℚ) + (t : ℚ) - 1 := by
  unfold subpathLengths at hc
  rw [hb] at hc
  simp only [evalST] at hc
  split_ifs at hc with h1 h2 h3 h4 h5
  · simp [skipEff] at hc
  · simp [skipEff] at hc
  · simp [skipEff] at hc
  · have ht0 : t ≠ 0 := fun h => h1 (Or.inr (Or.inl h))
    obtain ⟨t', rfl⟩ := Nat.exists_eq_succ_of_ne_zero ht0
    have hlen := directS1_commit_len_bounce cfg s (t' + 1) _ _ o cw tgt k len v hb hc
    rw [cumulativePathLength_bounce] at hlen
    subst h5
    rw [hlen]
    push_cast
    ring
  · have hs0 : s ≠ 0 := fun h => h1 (Or.inl h)
    obtain ⟨s', rfl⟩ := Nat.exists_eq_succ_of_ne_zero hs0
    have hlen := directT1_commit_len_bounce cfg (s' + 1) t _ _ o cw tgt k len v hb hc
    rw [cumulativePathLength_bounce] at hlen
    have ht1 : t = 1 := by
      rcases h4.2 with ⟨ht, -⟩ | ⟨hs, -⟩
      · exact ht
      · exact absurd hs h5
    subst ht1
    rw [hlen]
    push_cast
    ring
  · have hs0 : s ≠ 0 := fun h => h1 (Or.inl h)
    have ht0 : t ≠ 0 := fun h => h1 (Or.inr (Or.inl h))
    obtain ⟨s', rfl⟩ := Nat.exists_eq_succ_of_ne_zero hs0
    obtain ⟨t', rfl⟩ := Nat.exists_eq_succ_of_ne_zero ht0
    have hlen := mainConnect_commit_len_bounce cfg (s' + 1) (t' + 1) _ _ o cw tgt k len v hb hc
    rw [cumulativePathLength_bounce, cumulativePathLength_bounce] at hlen
    rw [hlen]
    push_cast
    ring

/-- Witness for claim C7: in Bounce mode with 100 unit-width bins the
connection at s = t = 2 commits with recorded length 3 = 2 + 2 - 1. -/
theorem bounce_commit_path_length_witness :
    (3 : ℚ) = ((2 : ℕ) : ℚ) + ((2 : ℕ) : ℚ) - 1 := by
  have hc : (evalST cfgBounce 2 2 (subpathLengths cfgBounce oneEdges)
      (subpathLengths cfgBounce oneEdges) oracleBenign 1).commit
      = some (CommitTarget.pixel, 3, 3, fun c => oracleBenign.rgb c * oracleBenign.miWeight) := by
    norm_num [evalST, mainConnect, connectAndCommit, commitDecision, steadyDecision,
      combineChoice, tempLen, mainPathLength, subpathLengths, cumulativePathLength,
      binIndexOf, cfgBounce, oracleBenign, oneEdges]
    simp
  exact bounce_commit_path_length cfgBounce oneEdges oneEdges 2 2 oracleBenign 1
    CommitTarget.pixel 3 3 _ rfl hc

/-- Claim C5 (corrected): the fatal log of bdpt_proc.cpp line 588 fires
exactly in the t = 1 direct-sampling strategy whose candidate is still
TransientEllipse after the combine decision; in particular it never
fires in the s = 1 strategy, where the code instead attempts the
ellipsoidal connection silently, so the behaviour is not symmetric
between s = 1 and t = 1. -/
theorem direct_ellipsoidal_fatal_iff (cfg : EvalConfig) (s t : ℕ) (eLen sLen : ℕ → ℚ)
    (o : STOracle) (cw : ℚ) :
    (evalST cfg s t eLen sLen o cw).fatal = true ↔
      (cfg.decompositionType = EDecompositionType.eTransientEllipse ∧
       cfg.sampleDirect = true ∧ t = 1 ∧ 1 < s ∧
       ¬(cfg.forceBounces = true ∧ (s ≠ cfg.sBounces ∨ t ≠ cfg.tBounces)) ∧
       o.vsDegenerate = false ∧ o.directValueZero = false ∧
       ¬(cfg.combineBDPTAndElliptic = true ∧
         cfg.decompositionMinBound ≤ eLen s + o.dist ∧
         eLen s + o.dist ≤ cfg.decompositionMaxBound ∧
         (cfg.modulated = false ∨ o.modU < o.corrVal))) := by
  constructor
  · intro h
    simp only [evalST] at h
    split_ifs at h with h1 h2 h3 h4 h5
    · simp [skipEff] at h
    · simp [skipEff] at h
    · simp [skipEff] at h
    · rw [directS1_fatal] at h
      exact absurd h (by simp)
    · rw [directT1_fatal_iff] at h
      obtain ⟨hdeg, hdvz, hte⟩ := h
      rw [combineChoice_cur_te_iff] at hte
      obtain ⟨hdt, hncomb⟩ := hte
      have hts : t = 1 ∧ 1 < s := by
        rcases h4.2 with hca | ⟨hs1, -⟩
        · exact hca
        · exact absurd hs1 h5
      refine ⟨hdt, h4.1, hts.1, hts.2, h3, hdeg, hdvz, ?_⟩
      simp only [tempLen, subpathLenAt, hdt] at hncomb
      simpa using hncomb
    · rw [mainConnect_fatal] at h
      exact absurd h (by simp)
  · rintro ⟨hdt, hsd, ht1, hs, hfb, hdeg, hdvz, hncomb⟩
    subst ht1
    unfold evalST
    have g1 : ¬(s = 0 ∨ (1 : ℕ) = 0 ∨
        (cfg.decompositionType = EDecompositionType.eTransient ∧ s = 1 ∧ (1 : ℕ) = 1)) := by
      rintro (hz | hz | ⟨hT, -, -⟩)
      · omega
      · simp at hz
      · rw [hdt] at hT
        simp at hT
    have g2 : ¬(o.isEmitterLaser = true ∧
        cfg.decompositionType = EDecompositionType.eTransient ∧ s = 2 ∧ (1 : ℕ) = 1) := by
      rintro ⟨-, hT, -, -⟩
      rw [hdt] at hT
      simp at hT
    have g4 : cfg.sampleDirect = true ∧
        (((1 : ℕ) = 1 ∧ 1 < s) ∨ (s = 1 ∧ 1 < (1 : ℕ))) := ⟨hsd, Or.inl ⟨rfl, hs⟩⟩
    have g5 : ¬(s = 1) := by omega
    rw [if_neg g1, if_neg g2, if_neg hfb, if_pos g4, if_neg g5]
    rw [directT1_fatal_iff]
    refine ⟨hdeg, hdvz, ?_⟩
    rw [combineChoice_cur_te_iff]
    refine ⟨hdt, ?_⟩
    simp only [tempLen, subpathLenAt, hdt]
    simpa using hncomb

/-- Counterexample for claim C5 as stated: with TransientEllipse, direct
sampling and the light image on, combining off, non-degenerate endpoints
and nonzero throughput, the s = 1, t = 2 strategy requests a direct
ellipsoidal connection (the sampler of line 529 runs) yet no fatal error
is raised, while the mirrored s = 2, t = 1 strategy is fatal: the claimed
behaviour, fatal at s = 1 and symmetric between the two sides, is false. -/
theorem direct_ellipsoidal_s1_counterexample :
    (evalST cfgTEDirect 1 2 zeroEdges zeroEdges oracleBenign 1).fatal = false ∧
    (evalST cfgTEDirect 1 2 zeroEdges zeroEdges oracleBenign 1).ellipseAttempted = true ∧
    (evalST cfgTEDirect 2 1 zeroEdges zeroEdges oracleBenign 1).fatal = true := by
  refine ⟨?_, ?_, ?_⟩
  · norm_num [evalST, cfgTEDirect, oracleBenign, directS1_fatal]
  · norm_num [evalST, directS1, s1Reclassify, tempLen, subpathLenAt,
      cfgTEDirect, oracleBenign, zeroEdges, skipEff]
  · norm_num [evalST, directT1, combineChoice, tempLen, subpathLenAt, fatalEff,
      cfgTEDirect, oracleBenign, zeroEdges]

/-- Claim C6 (confirmed): whenever one pixel sample of the process loop
completes without a fatal abort, the number of outstanding pool
allocations at the pixel-sample boundary equals the number before the
sample: the three scratch objects of evaluate and the two subpaths are
released on every control-flow path, including every skip branch of the
candidate loop, so pool.unused() holds whenever it held before. -/
theorem pool_balance_at_sample_boundary (cfg : EvalConfig) (eLen sLen : ℕ → ℚ)
    (oracle : ℕ → ℕ → STOracle) (pairs : List (ℕ × ℕ))
    (subpathObjects pool res : ℕ)
    (h : processSampleModel cfg eLen sLen oracle pairs subpathObjects pool = Except.ok res) :
    res = pool := by
  unfold processSampleModel evaluateModel at h
  by_cases hfat : (runCandidates cfg eLen sLen oracle pairs 1).any (fun e => e.fatal) = true
  · simp [hfat] at h
  · simp [hfat] at h
    omega

/-- Witness for claim C6: a run over the single candidate (2, 2) with the
plain transient configuration, seven subpath objects and an initially
empty pool ends with an empty pool. -/
theorem pool_balance_at_sample_boundary_witness :
    processSampleModel cfgTransient zeroEdges zeroEdges (fun _ _ => oracleBenign)
      [(2, 2)] 7 0 = Except.ok 0 ∧ (0 : ℕ) = 0 := by
  have h1 : (evalST cfgTransient 2 2 zeroEdges zeroEdges oracleBenign 1).fatal = false := by
    norm_num [evalST, cfgTransient, oracleBenign, mainConnect_fatal]
  have h : processSampleModel cfgTransient zeroEdges zeroEdges (fun _ _ => oracleBenign)
      [(2, 2)] 7 0 = Except.ok 0 := by
    simp [processSampleModel, evaluateModel, runCandidates, h1]
  exact ⟨h, pool_balance_at_sample_boundary cfgTransient zeroEdges zeroEdges
    (fun _ _ => oracleBenign) [(2, 2)] 7 0 0 h⟩

theorem welfordStep_closed (n : ℕ) (S Q x : ℚ) (h0 : n = 0 → S = 0 ∧ Q = 0) :
    welfordStep ⟨S / (n : ℚ), Q - S^2 / (n : ℚ), n⟩ x =
      ⟨(S + x) / ((n : ℚ) + 1), (Q + x^2) - (S + x)^2 / ((n : ℚ) + 1), n + 1⟩ := by
  unfold welfordStep
  by_cases hn : n = 0
  · obtain ⟨hS, hQ⟩ := h0 hn
    subst hS hQ hn
    simp only [WState.mk.injEq]
    norm_num
  · have hn' : (n : ℚ) ≠ 0 := Nat.cast_ne_zero.mpr hn
    have hn1 : (n : ℚ) + 1 ≠ 0 := by positivity
    simp only [WState.mk.injEq]
    refine ⟨?_, ?_, trivial⟩
    · push_cast
      field_simp
      ring
    · push_cast
      field_simp
      ring

theorem welfordFold_closed (xs : List ℚ) : ∀ (n : ℕ) (S Q : ℚ), (n = 0 → S = 0 ∧ Q = 0) →
    welfordFold ⟨S / (n : ℚ), Q - S^2 / (n : ℚ), n⟩ xs =
      ⟨(S + xs.sum) / ((n + xs.length : ℕ) : ℚ),
       (Q + (xs.map (fun x => x^2)).sum) - (S + xs.sum)^2 / ((n + xs.length : ℕ) : ℚ),
       n + xs.length⟩ := by
  induction xs with
  | nil =>
    intro n S Q h0
    simp [welfordFold]
  | cons x rest ih =>
    intro n S Q h0
    show welfordFold (welfordStep ⟨S / (n : ℚ), Q - S^2 / (n : ℚ), n⟩ x) rest = _
    rw [welfordStep_closed n S Q x h0]
    have hc : ((n + 1 : ℕ) : ℚ) = (n : ℚ) + 1 := by push_cast; ring
    have := ih (n + 1) (S + x) (Q + x^2) (by omega)
    rw [hc] at this
    rw [this]
    simp only [WState.mk.injEq]
    refine ⟨?_, ?_, by simp; omega⟩
    · have h1 : (n + 1) + rest.length = n + (x :: rest).length := by simp; omega
      rw [h1]
      have h2 : S + x + rest.sum = S + (x :: rest).sum := by simp [List.sum_cons]; ring
      rw [h2]
    · have h1 : (n + 1) + rest.length = n + (x :: rest).length := by simp; omega
      rw [h1]
      have h2 : S + x + rest.sum = S + (x :: rest).sum := by simp [List.sum_cons]; ring
      have h3 : Q + x^2 + (rest.map (fun y => y^2)).sum
          = Q + ((x :: rest).map (fun y => y^2)).sum := by simp [List.sum_cons]; ring
      rw [h2, h3]

theorem welfordFold_zero_spec (xs : List ℚ) :
    welfordFold ⟨0, 0, 0⟩ xs =
      ⟨xs.sum / (xs.length : ℚ),
       (xs.map (fun x => x^2)).sum - xs.sum^2 / (xs.length : ℚ),
       xs.length⟩ := by
  have h := welfordFold_closed xs 0 0 0 (by simp)
  simp at h
  simpa using h

theorem sum_sq_dev (xs : List ℚ) (m : ℚ) :
    (xs.map (fun x => (x - m)^2)).sum =
      (xs.map (fun x => x^2)).sum - 2*m*xs.sum + (xs.length : ℚ)*m^2 := by
  induction xs with
  | nil => simp
  | cons x rest ih =>
    simp only [List.map_cons, List.sum_cons, List.length_cons, ih]
    push_cast
    ring

theorem adaptiveLoopRun_spec (cfg : AdapConfig) (xs : List ℚ) (st out : WState)
    (h : AdaptiveLoopRun cfg st xs out) :
    ∃ n, 1 ≤ n ∧ n ≤ xs.length ∧ out = welfordFold st (xs.take n) ∧
      adaptiveStop cfg out ∧
      ∀ m, 1 ≤ m → m < n → ¬ adaptiveStop cfg (welfordFold st (xs.take m)) := by
  induction h with
  | stop st x rest hstop =>
    refine ⟨1, le_refl 1, by simp, rfl, hstop, ?_⟩
    intro m hm1 hm2
    omega
  | next st x rest out hnostop hrun ih =>
    obtain ⟨n, hn1, hnle, hout, hstop, hmin⟩ := ih
    refine ⟨n + 1, by omega, by simp; omega, ?_, hstop, ?_⟩
    · rw [List.take_succ_cons]
      exact hout
    · intro m hm1 hmlt
      match m, hm1 with
      | 1, _ =>
        simpa [List.take_succ_cons, welfordFold] using hnostop
      | (m' + 2), _ =>
        have hx := hmin (m' + 1) (by omega) (by omega)
        simpa [List.take_succ_cons, welfordFold] using hx

theorem adaptiveStop_iff_claimAmended (cfg : AdapConfig) (st : WState) :
    adaptiveStop cfg st ↔ claimStopAmended cfg st := by
  unfold adaptiveStop claimStopAmended
  have he : (st.meanSqr : ℝ) / ((st.sampleCount : ℝ) - 1) / (st.sampleCount : ℝ)
      = (st.meanSqr : ℝ) / ((st.sampleCount : ℝ) * ((st.sampleCount : ℝ) - 1)) := by
    rw [div_div, mul_comm]
  have hm : cfg.averageLuminance * 0.01 = 0.01 * cfg.averageLuminance := mul_comm _ _
  constructor
  · rintro (h | ⟨h1, h2⟩)
    · exact Or.inl h
    · rw [he, hm, mul_comm (Real.sqrt _) cfg.adapQuantile] at h2
      exact Or.inr ⟨h1, h2⟩
  · rintro (h | ⟨h1, h2⟩)
    · exact Or.inl h
    · rw [← he, ← hm, mul_comm cfg.adapQuantile (Real.sqrt _)] at h2
      exact Or.inr ⟨h1, h2⟩

/-- Claim C2 (corrected): a run of the adaptive sampling loop takes at
least one sample, its final state carries the exact mean and the exact
sum of squared deviations of the consumed luminances (the Welford
invariant), and it stops exactly at the first state satisfying the
claimed condition once the hard cap is guarded by
adapMaxSampleFactor being nonnegative, as in the source. -/
theorem adaptive_welford_termination (cfg : AdapConfig) (xs : List ℚ) (out : WState)
    (h : AdaptiveLoopRun cfg ⟨0, 0, 0⟩ xs out) :
    ∃ n, 1 ≤ n ∧ n ≤ xs.length ∧
      out.sampleCount = n ∧
      out.mean * (n : ℚ) = (xs.take n).sum ∧
      out.meanSqr = ((xs.take n).map (fun x => (x - out.mean)^2)).sum ∧
      claimStopAmended cfg out ∧
      (∀ m, 1 ≤ m → m < n →
        ¬ claimStopAmended cfg (welfordFold ⟨0, 0, 0⟩ (xs.take m))) := by
  obtain ⟨n, hn1, hnle, hout, hstop, hmin⟩ := adaptiveLoopRun_spec cfg xs ⟨0, 0, 0⟩ out h
  have hlen : (xs.take n).length = n := by
    rw [List.length_take]
    omega
  have hn0 : ((n : ℚ)) ≠ 0 := Nat.cast_ne_zero.mpr (by omega)
  have hout2 : out = ⟨(xs.take n).sum / (n : ℚ),
      ((xs.take n).map (fun x => x^2)).sum - (xs.take n).sum^2 / (n : ℚ), n⟩ := by
    rw [hout, welfordFold_zero_spec, hlen]
  refine ⟨n, hn1, hnle, ?_, ?_, ?_, ?_, ?_⟩
  · rw [hout2]
  · rw [hout2]
    show (xs.take n).sum / (n : ℚ) * (n : ℚ) = (xs.take n).sum
    field_simp
  · rw [hout2]
    show ((xs.take n).map (fun x => x^2)).sum - (xs.take n).sum^2 / (n : ℚ)
        = ((xs.take n).map (fun x => (x - (xs.take n).sum / (n : ℚ))^2)).sum
    rw [sum_sq_dev, hlen]
    field_simp
    ring
  · exact (adaptiveStop_iff_claimAmended cfg out).mp hstop
  · intro m hm1 hmn hcl
    exact hmin m hm1 hmn ((adaptiveStop_iff_claimAmended cfg _).mpr hcl)

/-- Counterexample for claim C2 as stated: with adapMaxSampleFactor -1
and samplesPerBin 2 the claimed unguarded hard cap holds already after
the first sample (1 is at least -1 * 2), yet the loop as coded ignores
the cap for a negative factor and draws a second sample, so the loop
does not terminate exactly when the claimed condition first holds. -/
theorem adaptive_welford_counterexample :
    AdaptiveLoopRun ceAdapConfig ⟨0, 0, 0⟩ [0, 0] ⟨0, 0, 2⟩ ∧
    claimStop ceAdapConfig ⟨0, 0, 1⟩ ∧
    ¬ adaptiveStop ceAdapConfig ⟨0, 0, 1⟩ ∧
    welfordStep ⟨0, 0, 0⟩ (0 : ℚ) = ⟨0, 0, 1⟩ := by
  have h1 : welfordStep ⟨0, 0, 0⟩ (0 : ℚ) = ⟨0, 0, 1⟩ := by
    simp [welfordStep]
  have h2 : welfordStep ⟨0, 0, 1⟩ (0 : ℚ) = ⟨0, 0, 2⟩ := by
    simp [welfordStep]
  have hstop2 : adaptiveStop ceAdapConfig ⟨0, 0, 2⟩ := by
    refine Or.inr ⟨by norm_num [ceAdapConfig], ?_⟩
    norm_num [ceAdapConfig]
  have hnostop1 : ¬ adaptiveStop ceAdapConfig ⟨0, 0, 1⟩ := by
    rintro (⟨hcap, -⟩ | ⟨hspb, -⟩)
    · norm_num [ceAdapConfig] at hcap
    · norm_num [ceAdapConfig] at hspb
  refine ⟨?_, Or.inl (by norm_num [ceAdapConfig]), hnostop1, h1⟩
  have hrun2 : AdaptiveLoopRun ceAdapConfig ⟨0, 0, 1⟩ [0] ⟨0, 0, 2⟩ := by
    have hx := AdaptiveLoopRun.stop ⟨0, 0, 1⟩ (0 : ℚ) []
      (by rw [h2]; exact hstop2)
    rwa [h2] at hx
  have hx := AdaptiveLoopRun.next ⟨0, 0, 0⟩ (0 : ℚ) [0] ⟨0, 0, 2⟩
    (by rw [h1]; exact hnostop1) (by rw [h1]; exact hrun2)
  exact hx

/-- Witness for claim C2: with the default cap factor 8, samplesPerBin
2 and two zero-luminance samples, the loop stops after exactly two
samples with zero mean and zero sum of squared deviations. -/
theorem adaptive_welford_termination_witness :
    ∃ n, 1 ≤ n ∧ n ≤ ([0, 0] : List ℚ).length ∧
      (⟨0, 0, 2⟩ : WState).sampleCount = n ∧
      (⟨0, 0, 2⟩ : WState).mean * (n : ℚ) = (([0, 0] : List ℚ).take n).sum ∧
      (⟨0, 0, 2⟩ : WState).meanSqr =
        ((([0, 0] : List ℚ).take n).map
          (fun x => (x - (⟨0, 0, 2⟩ : WState).mean)^2)).sum ∧
      claimStopAmended wAdapConfig ⟨0, 0, 2⟩ ∧
      (∀ m, 1 ≤ m → m < n →
        ¬ claimStopAmended wAdapConfig
            (welfordFold ⟨0, 0, 0⟩ (([0, 0] : List ℚ).take m))) := by
  apply adaptive_welford_termination wAdapConfig [0, 0] ⟨0, 0, 2⟩
  have h1 : welfordStep ⟨0, 0, 0⟩ (0 : ℚ) = ⟨0, 0, 1⟩ := by
    simp [welfordStep]
  have h2 : welfordStep ⟨0, 0, 1⟩ (0 : ℚ) = ⟨0, 0, 2⟩ := by
    simp [welfordStep]
  have hstop2 : adaptiveStop wAdapConfig ⟨0, 0, 2⟩ := by
    refine Or.inr ⟨by norm_num [wAdapConfig], ?_⟩
    norm_num [wAdapConfig]
  have hnostop1 : ¬ adaptiveStop wAdapConfig ⟨0, 0, 1⟩ := by
    rintro (⟨-, hcap⟩ | ⟨hspb, -⟩)
    · norm_num [wAdapConfig] at hcap
    · norm_num [wAdapConfig] at hspb
  have hrun2 : AdaptiveLoopRun wAdapConfig ⟨0, 0, 1⟩ [0] ⟨0, 0, 2⟩ := by
    have hx := AdaptiveLoopRun.stop ⟨0, 0, 1⟩ (0 : ℚ) []
      (by rw [h2]; exact hstop2)
    rwa [h2] at hx
  have hx := AdaptiveLoopRun.next ⟨0, 0, 0⟩ (0 : ℚ) [0] ⟨0, 0, 2⟩
    (by rw [h1]; exact hnostop1) (by rw [h1]; exact hrun2)
  exact hx
